import Mathlib

open Finset

namespace DetrHead

/-!
Verification of the DETR prediction head (`models/detr_head.py`):
shallow embedding of the MLP box head, the multi-head spatial attention
map, the FPN mask convolution head, ground-truth mask rasterization and
the orchestrating detection head, together with theorems settling the
specified properties.

Tensors are embedded as functions from `Fin`-typed indices to `ℝ`; the
reshape/transpose choreography of the source is embedded through explicit
index arithmetic.
-/

/-- `F.relu`: rectified linear unit. -/
noncomputable def relu (x : ℝ) : ℝ := max x 0

/-- `F.sigmoid`: logistic squashing function. -/
noncomputable def sigmoid (x : ℝ) : ℝ := 1 / (1 + Real.exp (-x))

/-- Row-major pairing of two indices, as used by `reshape`/`flatten`:
element `(a, b)` of an `[A, B]`-shaped axis pair sits at flat position
`a * B + b`. -/
def pairIdx {A B : ℕ} (a : Fin A) (b : Fin B) : Fin (A * B) :=
  ⟨a.val * B + b.val, by
    have hb := b.isLt
    have ha : a.val + 1 ≤ A := a.isLt
    calc a.val * B + b.val < a.val * B + B := by omega
      _ = (a.val + 1) * B := by ring
      _ ≤ A * B := Nat.mul_le_mul_right B ha⟩

/-- First component of the row-major split of a flat `[A*B]` index
(`j div B`), the inverse direction of `flatten(0, 1)`. -/
def fstIdx {A B : ℕ} (j : Fin (A * B)) : Fin A :=
  ⟨j.val / B, by
    have hj := j.isLt
    have hB : 0 < B := by
      rcases Nat.eq_zero_or_pos B with h | h
      · subst h; omega
      · exact h
    exact (Nat.div_lt_iff_lt_mul hB).mpr (by omega)⟩

/-- Second component of the row-major split of a flat `[A*B]` index
(`j mod B`). -/
def sndIdx {A B : ℕ} (j : Fin (A * B)) : Fin B :=
  ⟨j.val % B, by
    have hj := j.isLt
    have hB : 0 < B := by
      rcases Nat.eq_zero_or_pos B with h | h
      · subst h; omega
      · exact h
    exact Nat.mod_lt _ hB⟩

/-- Index into the first factor by `j mod A`: the row of a tensor obtained
by `tile([k, 1, 1, 1])` repetition of an `[A, ...]` tensor is the row
`j mod A` of the original. -/
def modFstIdx {A B : ℕ} (j : Fin (A * B)) : Fin A :=
  ⟨j.val % A, by
    have hj := j.isLt
    have hA : 0 < A := by
      rcases Nat.eq_zero_or_pos A with h | h
      · subst h; omega
      · exact h
    exact Nat.mod_lt _ hA⟩

/-! ## MaskHeadFPNConv

Embedding of `MaskHeadFPNConv` (lines 73-148).  Construction and the
convolutional chain are modelled at the channel level (the claims C4 and
C5 are about channel depths and pyramid lengths); the first fusion step
of `forward` (lines 134-137), which the claim C3 is about, is modelled on
full real-valued tensors. -/

/-- Channel description of one `nn.Conv2D`. -/
structure Conv2DSpec where
  inCh : ℕ
  outCh : ℕ
  kernel : ℕ
  padding : ℕ
deriving DecidableEq

/-- `inter_dims = [input_dim] + [context_dim // (2**i) for i in range(1, 5)]`
(lines 82-83). -/
def MaskHeadFPNConv.interDims (input_dim context_dim : ℕ) : List ℕ :=
  [input_dim] ++ (List.range' 1 4).map (fun i => context_dim / 2 ^ i)

/-- The (in, out) channel pairs of the intermediate conv blocks
`conv_inter` (lines 91-95): `zip(inter_dims[:-1], inter_dims[1:])`. -/
def MaskHeadFPNConv.convInterDims (input_dim context_dim : ℕ) : List (ℕ × ℕ) :=
  (MaskHeadFPNConv.interDims input_dim context_dim).zip
    (MaskHeadFPNConv.interDims input_dim context_dim).tail

/-- Output channel depths of the intermediate conv blocks. -/
def MaskHeadFPNConv.convInterOutDims (input_dim context_dim : ℕ) : List ℕ :=
  (MaskHeadFPNConv.convInterDims input_dim context_dim).map Prod.snd

/-- `self.conv_out = nn.Conv2D(inter_dims[-1], 1, 3, padding=1, ...)`
(lines 97-103). -/
def MaskHeadFPNConv.convOutSpec (input_dim context_dim : ℕ) : Conv2DSpec :=
  ⟨(MaskHeadFPNConv.interDims input_dim context_dim).getLastD 0, 1, 3, 1⟩

/-- The 1x1 adapter convolutions (lines 105-113):
`nn.Conv2D(fpn_dims[i], inter_dims[i + 1], 1)` for each pyramid level;
the lookup `inter_dims[i + 1]` raises when the pyramid has more levels
than there are successor entries of `inter_dims`, so construction is
`Option`-valued. -/
def MaskHeadFPNConv.mkAdapters (input_dim context_dim : ℕ)
    (fpn_dims : List ℕ) : Option (List Conv2DSpec) :=
  (List.range fpn_dims.length).mapM (fun i =>
    ((MaskHeadFPNConv.interDims input_dim context_dim)[i + 1]?).map
      (fun o => Conv2DSpec.mk (fpn_dims.getD i 0) o 1 0))

/-- Channel-level result of `MaskHeadFPNConv.__init__`. -/
structure MaskHeadShapes where
  conv0 : ℕ × ℕ
  convInter : List (ℕ × ℕ)
  convOut : Conv2DSpec
  adapters : List Conv2DSpec

/-- `MaskHeadFPNConv.__init__` (lines 79-113) at the channel level:
`conv0` preserves `input_dim` channels, `conv_inter` follows the zipped
`inter_dims` pairs, `conv_out` collapses `inter_dims[-1]` to one channel,
and one adapter is built per pyramid level. -/
def MaskHeadFPNConv.mkShapes (input_dim : ℕ) (fpn_dims : List ℕ)
    (context_dim : ℕ) : Option MaskHeadShapes :=
  (MaskHeadFPNConv.mkAdapters input_dim context_dim fpn_dims).map (fun ad =>
    ⟨(input_dim, input_dim),
     MaskHeadFPNConv.convInterDims input_dim context_dim,
     MaskHeadFPNConv.convOutSpec input_dim context_dim,
     ad⟩)

/-- A convolution applied at the channel level: accepts exactly `d.1`
input channels and yields `d.2`; any other channel count is a fatal shape
error. -/
def applyBlockCh (d : ℕ × ℕ) (c : ℕ) : Option ℕ :=
  if c = d.1 then some d.2 else none

/-- The top-down fusion loop of `MaskHeadFPNConv.forward` (lines 139-144)
at the channel level, over `zip(conv_inter[:-1], adapter, fpns)`: each
step projects the pyramid feature through its adapter, runs the current
intermediate block on the running tensor, and adds the two (which demands
equal channel counts). -/
def MaskHeadFPNConv.loopFuseCh :
    List ((ℕ × ℕ) × Conv2DSpec × ℕ) → ℕ → Option ℕ
  | [], c => some c
  | (blk, ad, featCh) :: rest, c =>
    if featCh = ad.inCh then
      match applyBlockCh blk c with
      | none => none
      | some c2 =>
        if ad.outCh = c2 then MaskHeadFPNConv.loopFuseCh rest c2 else none
    else none

/-- `MaskHeadFPNConv.forward` (lines 133-148) at the channel level: the
query-tiled memory (`xCh` channels) is concatenated with the flattened
attention maps (`nHeads` channels), passed through `conv0`, the fusion
loop, the last intermediate block and `conv_out`. -/
def MaskHeadFPNConv.forwardChannels (s : MaskHeadShapes) (xCh nHeads : ℕ)
    (fpnChs : List ℕ) : Option ℕ := do
  let c0 ← applyBlockCh s.conv0 (xCh + nHeads)
  let c1 ← MaskHeadFPNConv.loopFuseCh
    (s.convInter.dropLast.zip (s.adapters.zip fpnChs)) c0
  let lastBlk ← s.convInter.getLast?
  let c2 ← applyBlockCh lastBlk c1
  applyBlockCh (s.convOut.inCh, s.convOut.outCh) c2

/-- The first fusion step of `MaskHeadFPNConv.forward` (lines 134-137):
`paddle.concat([x.tile([Q, 1, 1, 1]), bbox_attention_map.flatten(0, 1)], 1)`.
`tile([Q, 1, 1, 1])` repeats the whole `[B, D, H, W]` tensor along the
batch axis, so row `j` of the tiled tensor is `x[j mod B]`, while
`flatten(0, 1)` lays the attention maps out so that row `j` holds the
weights of batch `j div Q`, query `j mod Q`. -/
noncomputable def MaskHeadFPNConv.fuseConcat {B Q D N H W : ℕ}
    (x : Fin B → Fin D → Fin H → Fin W → ℝ)
    (att : Fin B → Fin Q → Fin N → Fin H → Fin W → ℝ) :
    Fin (B * Q) → Fin (D + N) → Fin H → Fin W → ℝ :=
  fun j ch h w =>
    if hc : ch.val < D then x (modFstIdx j) ⟨ch.val, hc⟩ h w
    else att (fstIdx j) (sndIdx j) ⟨ch.val - D, by have := ch.isLt; omega⟩ h w

/-! ## MultiHeadAttentionMap

Embedding of `MultiHeadAttentionMap.forward` (lines 52-70).  The module
holds a linear query projection `q_proj` and a 1x1 convolutional key
projection `k_proj` (a per-pixel linear map), both from `query_dim` to
`hidden_dim`.  We parametrise the head count `n` and per-head dimension
`c`, with `hidden_dim = n * c` (the source computes
`c = hidden_dim // num_heads`). -/

/-- `self.normalize_fact = float(hidden_dim / self.num_heads) ** -0.5`. -/
noncomputable def normalizeFact (n c : ℕ) : ℝ :=
  (Real.sqrt (((n * c : ℕ) : ℝ) / (n : ℝ)))⁻¹

/-- `q = self.q_proj(q)`: linear projection of the query tensor
`[B, Q, query_dim] → [B, Q, hidden_dim]`. -/
noncomputable def qProj {B Q qd n c : ℕ}
    (Wq : Fin (n * c) → Fin qd → ℝ) (bq : Fin (n * c) → ℝ)
    (q : Fin B → Fin Q → Fin qd → ℝ) :
    Fin B → Fin Q → Fin (n * c) → ℝ :=
  fun b i d => (∑ e, Wq d e * q b i e) + bq d

/-- `k = self.k_proj(k)`: 1x1 convolution of the key map
`[B, query_dim, H, W] → [B, hidden_dim, H, W]`, a linear map applied at
every spatial position. -/
noncomputable def kProj {B qd n c H W : ℕ}
    (Wk : Fin (n * c) → Fin qd → ℝ) (bk : Fin (n * c) → ℝ)
    (k : Fin B → Fin qd → Fin H → Fin W → ℝ) :
    Fin B → Fin (n * c) → Fin H → Fin W → ℝ :=
  fun b d h w => (∑ e, Wk d e * k b e h w) + bk d

/-- The pre-mask attention logits (lines 55-63): `qh` is the projected
query reshaped to `[B, Q, n, c]`, `kh` the projected key reshaped to
`[B, n, c, h, w]`, and the transpose/reshape/`paddle.bmm` sequence
computes, per the einsum recorded in the source comment,
`weights[b,q,j,h,w] = sum_l (normalize_fact * qh[b,q,j,l]) * kh[b,j,l,h,w]`. -/
noncomputable def attnLogits {B Q qd n c H W : ℕ}
    (Wq : Fin (n * c) → Fin qd → ℝ) (bq : Fin (n * c) → ℝ)
    (Wk : Fin (n * c) → Fin qd → ℝ) (bk : Fin (n * c) → ℝ)
    (q : Fin B → Fin Q → Fin qd → ℝ)
    (k : Fin B → Fin qd → Fin H → Fin W → ℝ) :
    Fin B → Fin Q → Fin n → Fin H → Fin W → ℝ :=
  fun b i j h w =>
    ∑ l : Fin c,
      (normalizeFact n c * qProj Wq bq q b i (pairIdx j l)) *
        kProj Wk bk k b (pairIdx j l) h w

/-- Lines 65-66: `if mask is not None: weights += mask`. -/
noncomputable def maskedLogits {B Q qd n c H W : ℕ}
    (Wq : Fin (n * c) → Fin qd → ℝ) (bq : Fin (n * c) → ℝ)
    (Wk : Fin (n * c) → Fin qd → ℝ) (bk : Fin (n * c) → ℝ)
    (q : Fin B → Fin Q → Fin qd → ℝ)
    (k : Fin B → Fin qd → Fin H → Fin W → ℝ)
    (mask : Option (Fin B → Fin Q → Fin n → Fin H → Fin W → ℝ)) :
    Fin B → Fin Q → Fin n → Fin H → Fin W → ℝ :=
  match mask with
  | none => attnLogits Wq bq Wk bk q k
  | some m => fun b i j h w => attnLogits Wq bq Wk bk q k b i j h w + m b i j h w

/-- Line 68: `weights = F.softmax(weights.flatten(3), axis=-1).reshape(...)`:
softmax over the flattened `H*W` spatial extent, independently per
(batch, query, head).  This is the value `MultiHeadAttentionMap.forward`
returns before the final dropout (line 69). -/
noncomputable def attnWeights {B Q qd n c H W : ℕ}
    (Wq : Fin (n * c) → Fin qd → ℝ) (bq : Fin (n * c) → ℝ)
    (Wk : Fin (n * c) → Fin qd → ℝ) (bk : Fin (n * c) → ℝ)
    (q : Fin B → Fin Q → Fin qd → ℝ)
    (k : Fin B → Fin qd → Fin H → Fin W → ℝ)
    (mask : Option (Fin B → Fin Q → Fin n → Fin H → Fin W → ℝ)) :
    Fin B → Fin Q → Fin n → Fin H → Fin W → ℝ :=
  fun b i j h w =>
    Real.exp (maskedLogits Wq bq Wk bk q k mask b i j h w) /
      ∑ hp : Fin H, ∑ wp : Fin W,
        Real.exp (maskedLogits Wq bq Wk bk q k mask b i j hp wp)

/-! ## MLP

Embedding of `MLP` (lines 7-24).  Vectors are embedded as `ℕ → ℝ`
functions carrying an explicit dimension in each layer; a linear layer
reads exactly the first `inDim` coordinates of its input. -/

/-- One `nn.Linear(n, k)` layer. -/
structure LinearLayer where
  inDim : ℕ
  outDim : ℕ
  weight : ℕ → ℕ → ℝ
  bias : ℕ → ℝ

/-- Application of a linear layer: an affine map reading the first
`inDim` input coordinates. -/
noncomputable def LinearLayer.applyLin (l : LinearLayer) (v : ℕ → ℝ) : ℕ → ℝ :=
  fun j => (∑ i ∈ Finset.range l.inDim, l.weight j i * v i) + l.bias j

/-- Dimension pairs of the linear layers built by `MLP.__init__`:
`h = [hidden_dim] * (num_layers - 1)` and the layers zip
`[input_dim] + h` against `h + [output_dim]`. -/
def MLP.layerDims (inp hid out n : ℕ) : List (ℕ × ℕ) :=
  ([inp] ++ List.replicate (n - 1) hid).zip (List.replicate (n - 1) hid ++ [out])

/-- The linear layers of the MLP, with weights and biases supplied per
layer index. -/
noncomputable def MLP.mkLayers (inp hid out n : ℕ)
    (ps : ℕ → (ℕ → ℕ → ℝ) × (ℕ → ℝ)) : List LinearLayer :=
  List.zipWith (fun i d => ⟨d.1, d.2, (ps i).1, (ps i).2⟩)
    (List.range n) (MLP.layerDims inp hid out n)

/-- `MLP.forward` (lines 21-24): `x = F.relu(layer(x)) if i < num_layers - 1
else layer(x)` — ReLU after every layer except the last. -/
noncomputable def MLP.forwardAux : List LinearLayer → (ℕ → ℝ) → (ℕ → ℝ)
  | [], x => x
  | [l], x => l.applyLin x
  | l :: lb :: ls, x => MLP.forwardAux (lb :: ls) (fun j => relu (l.applyLin x j))

/-- The intermediate (post-ReLU) activations threaded through
`MLP.forward`, in order. -/
noncomputable def MLP.interActs : List LinearLayer → (ℕ → ℝ) → List (ℕ → ℝ)
  | [], _ => []
  | [_], _ => []
  | l :: lb :: ls, x =>
    (fun j => relu (l.applyLin x j)) ::
      MLP.interActs (lb :: ls) (fun j => relu (l.applyLin x j))

/-! ## Ground-truth mask rasterization

Embedding of `DETRHead.get_gt_mask_from_polygons` (lines 183-199) for one
image of the zipped loop.  The pycocotools chain `frPyObjects`/`merge`/
`decode` (run-length-encoding rasterization and union of multi-part
polygons) is an external collaborator of this module and enters as the
opaque `raster` argument.  The padding mask is a binary validity
indicator, so its first-column and first-row sums are cardinalities. -/

/-- `height = int(padding[:, 0].sum())` (line 187): sum of the first
column of the binary padding mask. -/
def padHeight {Hp Wp : ℕ} (padding : Fin (Hp + 1) → Fin (Wp + 1) → Bool) : ℕ :=
  ∑ y : Fin (Hp + 1), if padding y 0 = true then 1 else 0

/-- `width = int(padding[0, :].sum())` (line 187): sum of the first row of
the binary padding mask. -/
def padWidth {Hp Wp : ℕ} (padding : Fin (Hp + 1) → Fin (Wp + 1) → Bool) : ℕ :=
  ∑ x : Fin (Wp + 1), if padding 0 x = true then 1 else 0

/-- Lines 188-198 for one image: each object's polygons are rasterized at
the unpadded `height × width` resolution, the masks stacked, and written
into a zero tensor of the full padded extent
(`masks_pad[:, :height, :width] = masks`). -/
noncomputable def gtMaskForImage {Hp Wp : ℕ} {PolyObj : Type}
    (raster : PolyObj → ℕ → ℕ → ℕ → ℕ → ℝ)
    (polygons : List PolyObj)
    (padding : Fin (Hp + 1) → Fin (Wp + 1) → Bool) :
    List (Fin (Hp + 1) → Fin (Wp + 1) → ℝ) :=
  polygons.map (fun p => fun y x =>
    if y.val < padHeight padding ∧ x.val < padWidth padding then
      raster p (padHeight padding) (padWidth padding) y.val x.val
    else 0)

/-! ## DETRHead

Embedding of `DETRHead.forward` (lines 201-241).  The score head and box
head are embedded concretely (linear layer, sigmoid-squashed MLP); the
mask branch computes the attention map concretely from the last decoder
layer's queries and feeds the mask head, whose convolutional internals
(modelled channel-wise above) enter as the `maskHeadFn` collaborator
argument; `get_gt_mask_from_polygons` (embedded above as
`gtMaskForImage`) enters as the `gtMaskFn` argument applied to the
`gt_poly`/`pad_mask` payload; the external set-matching loss is the
opaque `loss` callable.  Execution order of the eager tensor computations
is recorded as an event trace. -/

/-- Execution-order events of `DETRHead.forward`, in source order:
score head (line 213), box head (line 214), attention map (217-218),
mask head and reshape (219-225), ground-truth mask rasterization
(230-232), loss invocation (233-239). -/
inductive HeadEv
  | score
  | bbox
  | attention
  | maskHead
  | gtMask
  | lossCall
deriving DecidableEq

/-- The two `assert` failures of the training branch (lines 228-229). -/
inductive AssertErr
  | inputsNone
  | missingKeys
deriving DecidableEq

/-- The supervision dictionary: presence of the keys `gt_bbox`,
`gt_class` and `gt_poly` (the latter carrying the polygon and pad-mask
payload). -/
structure HeadInputs (gb gc gp : Type) where
  gtBbox : Option gb
  gtClass : Option gc
  gtPoly : Option gp

/-- The argument bundle handed to the external loss callable
(lines 233-239). -/
structure LossArgs (L B Q ncls : ℕ) (sg gb gc mu : Type) where
  outputsBbox : Fin (L + 1) → Fin B → Fin Q → ℕ → ℝ
  outputsLogit : Fin (L + 1) → Fin B → Fin Q → Fin ncls → ℝ
  gtBbox : gb
  gtClass : gc
  masks : Option (Fin B → Fin Q → sg)
  gtMask : Option mu

/-- `outputs_logit = self.score_head(feats)` (line 213): the linear class
head applied per decoder layer. -/
noncomputable def DETRHead.outputsLogit (L B Q n c ncls : ℕ)
    (scoreW : Fin ncls → Fin (n * c) → ℝ) (scoreB : Fin ncls → ℝ)
    (feats : Fin (L + 1) → Fin B → Fin Q → Fin (n * c) → ℝ) :
    Fin (L + 1) → Fin B → Fin Q → Fin ncls → ℝ :=
  fun l b q cls => (∑ d, scoreW cls d * feats l b q d) + scoreB cls

/-- `outputs_bbox = F.sigmoid(self.bbox_head(feats))` (line 214): the box
MLP `MLP(hidden_dim, hidden_dim, 4, num_mlp_layers)` applied per decoder
layer, squashed by sigmoid.  The feature vector enters the untyped MLP
embedding through its first `n * c` coordinates. -/
noncomputable def DETRHead.outputsBbox (L B Q n c numMlp : ℕ)
    (bboxPs : ℕ → (ℕ → ℕ → ℝ) × (ℕ → ℝ))
    (feats : Fin (L + 1) → Fin B → Fin Q → Fin (n * c) → ℝ) :
    Fin (L + 1) → Fin B → Fin Q → ℕ → ℝ :=
  fun l b q j =>
    sigmoid (MLP.forwardAux (MLP.mkLayers (n * c) (n * c) 4 numMlp bboxPs)
      (fun i => if h : i < n * c then feats l b q ⟨i, h⟩ else 0) j)

/-- Lines 216-225: the mask branch.  The attention map is computed from
the last decoder layer's queries (`feats[-1]`) against memory with the
spatial mask as additive bias; the backbone pyramid is reversed and its
first (index 0) entry dropped; and the mask head's row-per-(batch, query)
output is reshaped back to `[B, Q, ...]` in row-major order using the
query tensor's batch/query sizes (lines 222-225). -/
noncomputable def DETRHead.outputsSeg (L B Q n c H W : ℕ)
    {pi ph sg : Type}
    (attWq : Fin (n * c) → Fin (n * c) → ℝ) (attBq : Fin (n * c) → ℝ)
    (attWk : Fin (n * c) → Fin (n * c) → ℝ) (attBk : Fin (n * c) → ℝ)
    (maskHeadFn : pi → (Fin B → Fin Q → Fin n → Fin H → Fin W → ℝ) →
      List ph → Fin (B * Q) → sg)
    (feats : Fin (L + 1) → Fin B → Fin Q → Fin (n * c) → ℝ)
    (memory : Fin B → Fin (n * c) → Fin H → Fin W → ℝ)
    (srcProj : pi)
    (srcMask : Option (Fin B → Fin Q → Fin n → Fin H → Fin W → ℝ))
    (bodyFeats : List ph) :
    Fin B → Fin Q → sg :=
  fun b q =>
    maskHeadFn srcProj
      (attnWeights attWq attBq attWk attBk (feats (Fin.last L)) memory srcMask)
      (bodyFeats.reverse.drop 1) (pairIdx b q)

/-- `DETRHead.forward` (lines 201-241).  Returns the trace of executed
tensor computations together with the result: an assertion failure, the
loss value (training), or the inference triple of last-layer boxes,
last-layer logits and optional mask logits. -/
noncomputable def DETRHead.forward (L B Q n c ncls numMlp H W : ℕ)
    {pi ph sg rho gb gc gp mu : Type}
    (scoreW : Fin ncls → Fin (n * c) → ℝ) (scoreB : Fin ncls → ℝ)
    (bboxPs : ℕ → (ℕ → ℕ → ℝ) × (ℕ → ℝ))
    (attWq : Fin (n * c) → Fin (n * c) → ℝ) (attBq : Fin (n * c) → ℝ)
    (attWk : Fin (n * c) → Fin (n * c) → ℝ) (attBk : Fin (n * c) → ℝ)
    (withMask : Bool)
    (maskHeadFn : pi → (Fin B → Fin Q → Fin n → Fin H → Fin W → ℝ) →
      List ph → Fin (B * Q) → sg)
    (gtMaskFn : gp → mu)
    (loss : LossArgs L B Q ncls sg gb gc mu → rho)
    (training : Bool)
    (feats : Fin (L + 1) → Fin B → Fin Q → Fin (n * c) → ℝ)
    (memory : Fin B → Fin (n * c) → Fin H → Fin W → ℝ)
    (srcProj : pi)
    (srcMask : Option (Fin B → Fin Q → Fin n → Fin H → Fin W → ℝ))
    (bodyFeats : List ph)
    (inputs : Option (HeadInputs gb gc gp)) :
    List HeadEv × Except AssertErr
      (rho ⊕ ((Fin B → Fin Q → ℕ → ℝ) × (Fin B → Fin Q → Fin ncls → ℝ) ×
        Option (Fin B → Fin Q → sg))) :=
  let outLogit := DETRHead.outputsLogit L B Q n c ncls scoreW scoreB feats
  let outBbox := DETRHead.outputsBbox L B Q n c numMlp bboxPs feats
  let outSeg : Option (Fin B → Fin Q → sg) :=
    if withMask then
      some (DETRHead.outputsSeg L B Q n c H W attWq attBq attWk attBk
        maskHeadFn feats memory srcProj srcMask bodyFeats)
    else none
  let evs := [HeadEv.score, HeadEv.bbox] ++
    (if withMask then [HeadEv.attention, HeadEv.maskHead] else [])
  if training then
    match inputs with
    | none => (evs, Except.error AssertErr.inputsNone)
    | some inp =>
      match inp.gtBbox, inp.gtClass with
      | some gtB, some gtC =>
        (evs ++ (match inp.gtPoly with
                 | some _ => [HeadEv.gtMask]
                 | none => []) ++ [HeadEv.lossCall],
         Except.ok (Sum.inl (loss
           ⟨outBbox, outLogit, gtB, gtC, outSeg, inp.gtPoly.map gtMaskFn⟩)))
      | _, _ => (evs, Except.error AssertErr.missingKeys)
  else
    (evs, Except.ok (Sum.inr
      (fun b q => outBbox (Fin.last L) b q,
       fun b q => outLogit (Fin.last L) b q,
       outSeg)))

/-- Bad supervision inputs for the training branch: `None`, or a
dictionary missing `gt_bbox` or `gt_class`. -/
def badInputs {gb gc gp : Type} : Option (HeadInputs gb gc gp) → Prop
  | none => True
  | some inp => inp.gtBbox = none ∨ inp.gtClass = none

/-- Zero-weight, all-dimensions-one instantiation of the head, used to
evaluate the forward pass at concrete inputs. -/
noncomputable def exHeadForward (withMask training : Bool)
    (inputs : Option (HeadInputs Unit Unit Unit)) :
    List HeadEv × Except AssertErr
      (Unit ⊕ ((Fin 1 → Fin 1 → ℕ → ℝ) × (Fin 1 → Fin 1 → Fin 1 → ℝ) ×
        Option (Fin 1 → Fin 1 → Unit))) :=
  DETRHead.forward 0 1 1 1 1 1 3 1 1
    (fun _ _ => 0) (fun _ => 0) (fun _ => (fun _ _ => 0, fun _ => 0))
    (fun _ _ => 0) (fun _ => 0) (fun _ _ => 0) (fun _ => 0)
    withMask (fun _ _ _ _ => ()) (fun (_ : Unit) => ())
    (fun (_ : LossArgs 0 1 1 1 Unit Unit Unit Unit) => ())
    training (fun _ _ _ _ => 0) (fun _ _ _ _ => 0) () none ([] : List Unit)
    inputs

/-- Two-decoder-layer query features differing only in the first layer:
variant A. -/
noncomputable def exFeatsA : Fin 2 → Fin 1 → Fin 1 → Fin (1 * 1) → ℝ :=
  fun l _ _ _ => if l.val = 0 then 1 else 0

/-- Two-decoder-layer query features differing only in the first layer:
variant B. -/
noncomputable def exFeatsB : Fin 2 → Fin 1 → Fin 1 → Fin (1 * 1) → ℝ :=
  fun _ _ _ _ => 0

/-- The minimal head with two decoder layers and the mask branch enabled,
in inference mode, applied to a given query-feature tensor. -/
noncomputable def exHeadForwardTwoLayers
    (feats : Fin 2 → Fin 1 → Fin 1 → Fin (1 * 1) → ℝ) :
    List HeadEv × Except AssertErr
      (Unit ⊕ ((Fin 1 → Fin 1 → ℕ → ℝ) × (Fin 1 → Fin 1 → Fin 1 → ℝ) ×
        Option (Fin 1 → Fin 1 → Unit))) :=
  DETRHead.forward 1 1 1 1 1 1 3 1 1
    (fun _ _ => 0) (fun _ => 0) (fun _ => (fun _ _ => 0, fun _ => 0))
    (fun _ _ => 0) (fun _ => 0) (fun _ _ => 0) (fun _ => 0)
    true (fun _ _ _ _ => ()) (fun (_ : Unit) => ())
    (fun (_ : LossArgs 1 1 1 1 Unit Unit Unit Unit) => ())
    false feats (fun _ _ _ _ => 0) () none ([] : List Unit)
    (none : Option (HeadInputs Unit Unit Unit))

theorem relu_nonneg (x : ℝ) : 0 ≤ relu x := le_max_right x 0

theorem sigmoid_nonneg (x : ℝ) : 0 ≤ sigmoid x := by
  have h : (0 : ℝ) < 1 + Real.exp (-x) := by positivity
  exact le_of_lt (div_pos one_pos h)

theorem sigmoid_le_one (x : ℝ) : sigmoid x ≤ 1 := by
  have h : (0 : ℝ) < 1 + Real.exp (-x) := by positivity
  rw [sigmoid, div_le_one h]
  have := Real.exp_pos (-x)
  linarith

/-- C3 evaluated at the failing input: with B = 2 batches and Q = 2
queries, the row j = 1 of the fused tensor — which holds the attention
weights of batch 0, query 1 — takes its memory channels from `x[1]`
(value 1), not from `x[0]` (value 0) as the claimed per-(b, q) pairing
requires. -/
theorem C3_failing_eval :
    @MaskHeadFPNConv.fuseConcat 2 2 1 1 1 1 (fun b _ _ _ => (b.val : ℝ))
        (fun _ _ _ _ _ => 0) 1 0 0 0 = 1 ∧
    fstIdx (1 : Fin (2 * 2)) = (0 : Fin 2) ∧
    sndIdx (1 : Fin (2 * 2)) = (1 : Fin 2) ∧
    ((fun (b : Fin 2) (_ : Fin 1) (_ : Fin 1) (_ : Fin 1) => (b.val : ℝ))
        (fstIdx (1 : Fin (2 * 2))) 0 0 0 = 0) ∧
    (1 : ℝ) ≠ 0 := by
  refine ⟨?_, ?_, ?_, ?_, one_ne_zero⟩
  · norm_num [MaskHeadFPNConv.fuseConcat, modFstIdx]
  · rfl
  · rfl
  · norm_num [fstIdx]

/-- Counterexample for C4: with `input_dim = 264` (hidden 256 plus 8
attention heads) and `context_dim = 256`, the intermediate conv blocks
output [128, 64, 32, 16] channels, not [256, 128, 64, 32]. -/
theorem C4_counterexample :
    MaskHeadFPNConv.convInterOutDims 264 256 = [128, 64, 32, 16] ∧
    MaskHeadFPNConv.convInterOutDims 264 256 ≠ [256, 128, 64, 32] := by
  constructor <;> decide

/-- C4 amended: the cascade has four intermediate conv blocks whose output
channel depths halve at each stage but start at `context_dim / 2`:
they are context_dim/2, context_dim/4, context_dim/8, context_dim/16
(floor division), their input depths are input_dim, context_dim/2,
context_dim/4, context_dim/8, and the final convolution is a 3×3 (padding
1) collapsing `inter_dims[-1] = context_dim / 16` channels to 1. -/
theorem C4_amended_cascade (input_dim context_dim : ℕ) :
    MaskHeadFPNConv.convInterOutDims input_dim context_dim =
      [context_dim / 2, context_dim / 4, context_dim / 8, context_dim / 16] ∧
    (MaskHeadFPNConv.convInterDims input_dim context_dim).map Prod.fst =
      [input_dim, context_dim / 2, context_dim / 4, context_dim / 8] ∧
    MaskHeadFPNConv.convOutSpec input_dim context_dim =
      ⟨context_dim / 16, 1, 3, 1⟩ := by
  refine ⟨?_, ?_, ?_⟩ <;>
    simp [MaskHeadFPNConv.convInterOutDims, MaskHeadFPNConv.convInterDims,
      MaskHeadFPNConv.interDims, MaskHeadFPNConv.convOutSpec, List.range']

/-- Counterexample for C5: a pyramid of length 4 (one more than the
number of intermediate stages minus one) is accepted at construction and
silently processed by the forward pass — the zip truncation simply drops
the extra level — with the standard configuration input_dim = 264,
context_dim = 256, memory channels 256, 8 attention heads. -/
theorem C5_counterexample :
    (MaskHeadFPNConv.mkShapes 264 [1024, 512, 256, 128] 256).isSome = true ∧
    ((MaskHeadFPNConv.mkShapes 264 [1024, 512, 256, 128] 256).bind
      (fun s => MaskHeadFPNConv.forwardChannels s 256 8 [1024, 512, 256, 128])) =
        some 1 := by
  constructor <;> decide

/-- C5 amended: pyramid lengths above 4 fail at construction (the
`inter_dims[i + 1]` lookup); lengths below 3 construct but fail in the
forward pass with a channel mismatch at the final intermediate block;
length 3 runs the full cascade; and length 4 is accepted and silently
ignores its extra level. -/
theorem C5_amended_lengths :
    (MaskHeadFPNConv.mkShapes 264 [1024, 512, 256, 128, 64] 256).isSome = false ∧
    (MaskHeadFPNConv.mkShapes 264 [1024, 512] 256).isSome = true ∧
    ((MaskHeadFPNConv.mkShapes 264 [1024, 512] 256).bind
      (fun s => MaskHeadFPNConv.forwardChannels s 256 8 [1024, 512])) = none ∧
    ((MaskHeadFPNConv.mkShapes 264 [1024, 512, 256] 256).bind
      (fun s => MaskHeadFPNConv.forwardChannels s 256 8 [1024, 512, 256])) =
        some 1 ∧
    ((MaskHeadFPNConv.mkShapes 264 [1024, 512, 256, 128] 256).bind
      (fun s => MaskHeadFPNConv.forwardChannels s 256 8 [1024, 512, 256, 128])) =
        some 1 := by
  refine ⟨?_, ?_, ?_, ?_, ?_⟩ <;> decide

/-- C1: for every query tensor, key tensor and optional additive mask, the
attention weights returned by `MultiHeadAttentionMap.forward` before dropout
lie in [0,1] and, for every (batch, query, head) triple, sum to 1 over the
flattened H×W spatial extent, because the softmax is taken over the flattened
spatial axis and not over heads or queries. -/
theorem C1_attention_normalization {B Q qd n c H W : ℕ}
    (hH : 0 < H) (hW : 0 < W)
    (Wq : Fin (n * c) → Fin qd → ℝ) (bq : Fin (n * c) → ℝ)
    (Wk : Fin (n * c) → Fin qd → ℝ) (bk : Fin (n * c) → ℝ)
    (q : Fin B → Fin Q → Fin qd → ℝ)
    (k : Fin B → Fin qd → Fin H → Fin W → ℝ)
    (mask : Option (Fin B → Fin Q → Fin n → Fin H → Fin W → ℝ))
    (b : Fin B) (i : Fin Q) (j : Fin n) :
    (∑ h : Fin H, ∑ w : Fin W, attnWeights Wq bq Wk bk q k mask b i j h w) = 1 ∧
    ∀ (h : Fin H) (w : Fin W),
      0 ≤ attnWeights Wq bq Wk bk q k mask b i j h w ∧
        attnWeights Wq bq Wk bk q k mask b i j h w ≤ 1 := by
  set ml := maskedLogits Wq bq Wk bk q k mask with hml
  set S : ℝ := ∑ hp : Fin H, ∑ wp : Fin W, Real.exp (ml b i j hp wp) with hS
  have hSpos : 0 < S := by
    rw [hS]
    apply Finset.sum_pos
    · intro hp _
      apply Finset.sum_pos
      · intro wp _
        exact Real.exp_pos _
      · exact ⟨⟨0, hW⟩, Finset.mem_univ _⟩
    · exact ⟨⟨0, hH⟩, Finset.mem_univ _⟩
  have hw : ∀ (h : Fin H) (w : Fin W),
      attnWeights Wq bq Wk bk q k mask b i j h w = Real.exp (ml b i j h w) / S := by
    intro h w
    rfl
  constructor
  · have hsum : (∑ h : Fin H, ∑ w : Fin W, Real.exp (ml b i j h w) / S) = S / S := by
      rw [hS]
      rw [Finset.sum_div]
      apply Finset.sum_congr rfl
      intro h _
      rw [Finset.sum_div]
    rw [Finset.sum_congr rfl fun h _ => Finset.sum_congr rfl fun w _ => hw h w, hsum,
      div_self (ne_of_gt hSpos)]
  · intro h w
    rw [hw h w]
    constructor
    · exact div_nonneg (Real.exp_pos _).le hSpos.le
    · rw [div_le_one hSpos, hS]
      have t1 : Real.exp (ml b i j h w) ≤ ∑ wp : Fin W, Real.exp (ml b i j h wp) :=
        Finset.single_le_sum (fun _ _ => (Real.exp_pos _).le) (Finset.mem_univ w)
      have t2 : (∑ wp : Fin W, Real.exp (ml b i j h wp)) ≤
          ∑ hp : Fin H, ∑ wp : Fin W, Real.exp (ml b i j hp wp) :=
        Finset.single_le_sum (f := fun hp => ∑ wp : Fin W, Real.exp (ml b i j hp wp))
          (fun _ _ => Finset.sum_nonneg fun _ _ => (Real.exp_pos _).le)
          (Finset.mem_univ h)
      linarith

set_option maxHeartbeats 1000000 in
/-- Witness for C1 at a concrete instantiation (all dimensions 1, zero
weights, no mask). -/
theorem C1_attention_normalization_witness :
    0 < 1 ∧ 0 < 1 ∧
    ((∑ h : Fin 1, ∑ w : Fin 1,
        @attnWeights 1 1 1 1 1 1 1
          (fun _ _ => 0) (fun _ => 0) (fun _ _ => 0) (fun _ => 0)
          (fun _ _ _ => 0) (fun _ _ _ _ => 0) none 0 0 0 h w) = 1 ∧
      ∀ (h : Fin 1) (w : Fin 1),
        0 ≤ @attnWeights 1 1 1 1 1 1 1
            (fun _ _ => 0) (fun _ => 0) (fun _ _ => 0) (fun _ => 0)
            (fun _ _ _ => 0) (fun _ _ _ _ => 0) none 0 0 0 h w ∧
          @attnWeights 1 1 1 1 1 1 1
            (fun _ _ => 0) (fun _ => 0) (fun _ _ => 0) (fun _ => 0)
            (fun _ _ _ => 0) (fun _ _ _ _ => 0) none 0 0 0 h w ≤ 1) :=
  ⟨Nat.one_pos, Nat.one_pos,
    @C1_attention_normalization 1 1 1 1 1 1 1 Nat.one_pos Nat.one_pos
      (fun _ _ => 0) (fun _ => 0) (fun _ _ => 0) (fun _ => 0)
      (fun _ _ _ => 0) (fun _ _ _ _ => 0) none 0 0 0⟩

theorem MLP.zip_replicate_dims (hid out : ℕ) (m : ℕ) : ∀ (a : ℕ),
    (a :: List.replicate m hid).zip (List.replicate m hid ++ [out]) =
      (List.range (m + 1)).map
        (fun i => (if i = 0 then a else hid, if i = m then out else hid)) := by
  induction m with
  | zero => intro a; simp [List.range_succ]
  | succ m ih =>
    intro a
    rw [List.replicate_succ, List.cons_append, List.zip_cons_cons,
      List.range_succ_eq_map, List.map_cons, List.map_map, ih hid]
    congr 1
    apply List.map_congr_left
    intro i _
    simp only [Function.comp_def]
    by_cases him : i = m
    · subst him
      simp [Nat.succ_ne_zero]
    · have h2 : ¬ (i + 1 = m + 1) := by omega
      have h3 : ¬ (Nat.succ i = m + 1) := by omega
      simp [him, Nat.succ_ne_zero, h2, h3]

theorem MLP.layerDims_eq (inp hid out n : ℕ) (h1 : 1 ≤ n) :
    MLP.layerDims inp hid out n =
      (List.range n).map
        (fun i => (if i = 0 then inp else hid, if i = n - 1 then out else hid)) := by
  obtain ⟨m, rfl⟩ : ∃ m, n = m + 1 := ⟨n - 1, by omega⟩
  rw [MLP.layerDims, List.singleton_append, MLP.zip_replicate_dims]
  simp

theorem LinearLayer.applyLin_congr (l : LinearLayer) (v1 v2 : ℕ → ℝ)
    (h : ∀ i, i < l.inDim → v1 i = v2 i) (j : ℕ) :
    l.applyLin v1 j = l.applyLin v2 j := by
  unfold LinearLayer.applyLin
  congr 1
  apply Finset.sum_congr rfl
  intro i hi
  rw [h i (Finset.mem_range.mp hi)]

theorem MLP.interActs_nonneg :
    ∀ (ls : List LinearLayer) (v : ℕ → ℝ), ∀ a ∈ MLP.interActs ls v, ∀ j, 0 ≤ a j
  | [], v => by simp [MLP.interActs]
  | [l], v => by simp [MLP.interActs]
  | l :: lb :: ls, v => by
    intro a ha j
    simp only [MLP.interActs, List.mem_cons] at ha
    rcases ha with h | h
    · subst h; exact relu_nonneg _
    · exact MLP.interActs_nonneg (lb :: ls) _ a h j

theorem MLP.mkLayers_cons (inp hid out m : ℕ) (ps : ℕ → (ℕ → ℕ → ℝ) × (ℕ → ℝ)) :
    ∃ (d : ℕ) (rest : List LinearLayer),
      MLP.mkLayers inp hid out (m + 1) ps =
        LinearLayer.mk inp d (ps 0).1 (ps 0).2 :: rest := by
  cases m with
  | zero => exact ⟨out, [], rfl⟩
  | succ m =>
    refine ⟨hid, ?_, ?_⟩
    · exact List.zipWith (fun i d => ⟨d.1, d.2, (ps i).1, (ps i).2⟩)
        ((List.range (m + 1)).map Nat.succ)
        ((hid :: List.replicate m hid).zip (List.replicate m hid ++ [out]))
    · rw [MLP.mkLayers, MLP.layerDims, List.range_succ_eq_map]
      simp only [Nat.add_sub_cancel, List.replicate_succ, List.singleton_append,
        List.cons_append, List.zip_cons_cons, List.zipWith_cons_cons,
        List.nil_append]

/-- C8: an MLP built with `input_dim`, `hidden_dim`, `output_dim` and
`num_layers ≥ 1` contains exactly `num_layers` linear transforms, whose
dimension pairs follow the zip of `[input_dim] + h` with `h + [output_dim]`
(first maps input→hidden, middle hidden→hidden, last hidden→output); its
forward output depends on the input only through the first `input_dim`
coordinates, and every intermediate (post-ReLU) activation is
non-negative. -/
theorem C8_mlp_shape (inp hid out n : ℕ) (ps : ℕ → (ℕ → ℕ → ℝ) × (ℕ → ℝ))
    (h1 : 1 ≤ n) :
    (MLP.mkLayers inp hid out n ps).length = n ∧
    (∀ i, i < n →
      (MLP.layerDims inp hid out n)[i]? =
        some (if i = 0 then inp else hid, if i = n - 1 then out else hid)) ∧
    (∀ v1 v2 : ℕ → ℝ, (∀ i, i < inp → v1 i = v2 i) → ∀ j,
      MLP.forwardAux (MLP.mkLayers inp hid out n ps) v1 j =
        MLP.forwardAux (MLP.mkLayers inp hid out n ps) v2 j) ∧
    (∀ v : ℕ → ℝ, ∀ a ∈ MLP.interActs (MLP.mkLayers inp hid out n ps) v,
      ∀ j, 0 ≤ a j) := by
  refine ⟨?_, ?_, ?_, ?_⟩
  · rw [MLP.mkLayers, List.length_zipWith, MLP.layerDims_eq inp hid out n h1]
    simp
  · intro i hi
    rw [MLP.layerDims_eq inp hid out n h1]
    rw [List.getElem?_map, List.getElem?_range hi]
    rfl
  · intro v1 v2 hv j
    obtain ⟨m, rfl⟩ : ∃ m, n = m + 1 := ⟨n - 1, by omega⟩
    obtain ⟨d, rest, hcons⟩ := MLP.mkLayers_cons inp hid out m ps
    rw [hcons]
    have happ : ∀ j, (LinearLayer.mk inp d (ps 0).1 (ps 0).2).applyLin v1 j =
        (LinearLayer.mk inp d (ps 0).1 (ps 0).2).applyLin v2 j := fun j =>
      LinearLayer.applyLin_congr _ v1 v2 hv j
    cases rest with
    | nil => exact happ j
    | cons lb ls =>
      show MLP.forwardAux (lb :: ls) _ j = MLP.forwardAux (lb :: ls) _ j
      congr 1
      funext i
      rw [happ i]
  · intro v a ha j
    exact MLP.interActs_nonneg _ v a ha j

/-- Witness for C8 at `input_dim = 2`, `hidden_dim = 3`, `output_dim = 1`,
`num_layers = 3`, zero parameters. -/
theorem C8_mlp_shape_witness :
    1 ≤ 3 ∧
    ((MLP.mkLayers 2 3 1 3 (fun _ => (fun _ _ => 0, fun _ => 0))).length = 3 ∧
    (∀ i, i < 3 →
      (MLP.layerDims 2 3 1 3)[i]? =
        some (if i = 0 then 2 else 3, if i = 3 - 1 then 1 else 3)) ∧
    (∀ v1 v2 : ℕ → ℝ, (∀ i, i < 2 → v1 i = v2 i) → ∀ j,
      MLP.forwardAux (MLP.mkLayers 2 3 1 3 (fun _ => (fun _ _ => 0, fun _ => 0))) v1 j =
        MLP.forwardAux (MLP.mkLayers 2 3 1 3 (fun _ => (fun _ _ => 0, fun _ => 0))) v2 j) ∧
    (∀ v : ℕ → ℝ,
      ∀ a ∈ MLP.interActs (MLP.mkLayers 2 3 1 3 (fun _ => (fun _ _ => 0, fun _ => 0))) v,
      ∀ j, 0 ≤ a j)) :=
  ⟨by omega, C8_mlp_shape 2 3 1 3 (fun _ => (fun _ _ => 0, fun _ => 0)) (by omega)⟩

/-- C9: for every image, the unpadded height and width are the sums of the
padding mask's first column and first row, they fit inside the padded
canvas, one output mask is produced per object in order, and each output
mask carries the object's raster on the top-left height×width region
while every remaining (padded) entry is exactly zero. -/
theorem C9_gt_mask_paste {Hp Wp : ℕ} {PolyObj : Type}
    (raster : PolyObj → ℕ → ℕ → ℕ → ℕ → ℝ)
    (polygons : List PolyObj)
    (padding : Fin (Hp + 1) → Fin (Wp + 1) → Bool) :
    (gtMaskForImage raster polygons padding).length = polygons.length ∧
    padHeight padding ≤ Hp + 1 ∧
    padWidth padding ≤ Wp + 1 ∧
    ∀ (o : Fin polygons.length) (y : Fin (Hp + 1)) (x : Fin (Wp + 1)),
      (y.val < padHeight padding ∧ x.val < padWidth padding →
        (gtMaskForImage raster polygons padding).getD o.val (fun _ _ => 0) y x =
          raster (polygons.get o) (padHeight padding) (padWidth padding)
            y.val x.val) ∧
      (¬(y.val < padHeight padding ∧ x.val < padWidth padding) →
        (gtMaskForImage raster polygons padding).getD o.val (fun _ _ => 0) y x
          = 0) := by
  have hlen : (gtMaskForImage raster polygons padding).length = polygons.length := by
    simp [gtMaskForImage]
  have hget : ∀ (o : Fin polygons.length) (y : Fin (Hp + 1)) (x : Fin (Wp + 1)),
      (gtMaskForImage raster polygons padding).getD o.val (fun _ _ => 0) y x =
        if y.val < padHeight padding ∧ x.val < padWidth padding then
          raster (polygons.get o) (padHeight padding) (padWidth padding)
            y.val x.val
        else 0 := by
    intro o y x
    rw [List.getD_eq_getElem?_getD, gtMaskForImage, List.getElem?_map,
      List.getElem?_eq_getElem o.isLt]
    rfl
  refine ⟨hlen, ?_, ?_, ?_⟩
  · calc padHeight padding ≤ ∑ _y : Fin (Hp + 1), 1 :=
        Finset.sum_le_sum (fun i _ => by
          by_cases h : padding i 0 = true <;> simp [padHeight, h])
      _ = Hp + 1 := by simp
  · calc padWidth padding ≤ ∑ _x : Fin (Wp + 1), 1 :=
        Finset.sum_le_sum (fun i _ => by
          by_cases h : padding 0 i = true <;> simp [padWidth, h])
      _ = Wp + 1 := by simp
  · intro o y x
    constructor
    · intro hin
      rw [hget o y x, if_pos hin]
    · intro hout
      rw [hget o y x, if_neg hout]

/-- Witness for C9 at a concrete instantiation: a 2×2 canvas whose
padding mask marks only the top-left pixel valid, one object, constant
raster 1. -/
theorem C9_gt_mask_paste_witness :
    ((@gtMaskForImage 1 1 Unit (fun _ _ _ _ _ => 1) [()]
        (fun y x => decide (y.val = 0) && decide (x.val = 0))).length = [()].length ∧
    padHeight (fun (y : Fin 2) (x : Fin 2) =>
      decide (y.val = 0) && decide (x.val = 0)) ≤ 1 + 1 ∧
    padWidth (fun (y : Fin 2) (x : Fin 2) =>
      decide (y.val = 0) && decide (x.val = 0)) ≤ 1 + 1 ∧
    ∀ (o : Fin ([()] : List Unit).length) (y : Fin (1 + 1)) (x : Fin (1 + 1)),
      (y.val < padHeight (fun (y : Fin 2) (x : Fin 2) =>
          decide (y.val = 0) && decide (x.val = 0)) ∧
       x.val < padWidth (fun (y : Fin 2) (x : Fin 2) =>
          decide (y.val = 0) && decide (x.val = 0)) →
        (gtMaskForImage (fun (_ : Unit) _ _ _ _ => 1) [()]
          (fun y x => decide (y.val = 0) && decide (x.val = 0))).getD o.val
            (fun _ _ => 0) y x =
          (fun (_ : Unit) _ _ _ _ => (1 : ℝ)) (([()] : List Unit).get o)
            (padHeight (fun (y : Fin 2) (x : Fin 2) =>
              decide (y.val = 0) && decide (x.val = 0)))
            (padWidth (fun (y : Fin 2) (x : Fin 2) =>
              decide (y.val = 0) && decide (x.val = 0))) y.val x.val) ∧
      (¬(y.val < padHeight (fun (y : Fin 2) (x : Fin 2) =>
          decide (y.val = 0) && decide (x.val = 0)) ∧
         x.val < padWidth (fun (y : Fin 2) (x : Fin 2) =>
          decide (y.val = 0) && decide (x.val = 0))) →
        (gtMaskForImage (fun (_ : Unit) _ _ _ _ => 1) [()]
          (fun y x => decide (y.val = 0) && decide (x.val = 0))).getD o.val
            (fun _ _ => 0) y x = 0)) :=
  C9_gt_mask_paste (fun (_ : Unit) _ _ _ _ => 1) [()]
    (fun y x => decide (y.val = 0) && decide (x.val = 0))

/-- C6: every element of the box-coordinate tensor computed by
`DETRHead.forward` — the tensor returned in inference mode and handed to
the loss in training mode — lies in the closed interval [0,1]: the raw
MLP regression output is always passed through the sigmoid before use,
for every decoder layer. -/
theorem C6_bbox_sigmoid_range (L B Q n c numMlp : ℕ)
    (bboxPs : ℕ → (ℕ → ℕ → ℝ) × (ℕ → ℝ))
    (feats : Fin (L + 1) → Fin B → Fin Q → Fin (n * c) → ℝ)
    (l : Fin (L + 1)) (b : Fin B) (q : Fin Q) (j : ℕ) :
    0 ≤ DETRHead.outputsBbox L B Q n c numMlp bboxPs feats l b q j ∧
      DETRHead.outputsBbox L B Q n c numMlp bboxPs feats l b q j ≤ 1 :=
  ⟨sigmoid_nonneg _, sigmoid_le_one _⟩

/-- C7: in inference mode `DETRHead.forward` returns exactly the 3-tuple
of the last decoder layer's box predictions, the last layer's class
logits, and the mask logits, the mask component being `none` exactly when
the mask branch is disabled; no assertion is raised whatever `inputs`
holds. -/
theorem C7_inference_triple (L B Q n c ncls numMlp H W : ℕ)
    {pi ph sg rho gb gc gp mu : Type}
    (scoreW : Fin ncls → Fin (n * c) → ℝ) (scoreB : Fin ncls → ℝ)
    (bboxPs : ℕ → (ℕ → ℕ → ℝ) × (ℕ → ℝ))
    (attWq : Fin (n * c) → Fin (n * c) → ℝ) (attBq : Fin (n * c) → ℝ)
    (attWk : Fin (n * c) → Fin (n * c) → ℝ) (attBk : Fin (n * c) → ℝ)
    (withMask : Bool)
    (maskHeadFn : pi → (Fin B → Fin Q → Fin n → Fin H → Fin W → ℝ) →
      List ph → Fin (B * Q) → sg)
    (gtMaskFn : gp → mu)
    (loss : LossArgs L B Q ncls sg gb gc mu → rho)
    (feats : Fin (L + 1) → Fin B → Fin Q → Fin (n * c) → ℝ)
    (memory : Fin B → Fin (n * c) → Fin H → Fin W → ℝ)
    (srcProj : pi)
    (srcMask : Option (Fin B → Fin Q → Fin n → Fin H → Fin W → ℝ))
    (bodyFeats : List ph)
    (inputs : Option (HeadInputs gb gc gp)) :
    ∃ t, (DETRHead.forward L B Q n c ncls numMlp H W scoreW scoreB bboxPs
        attWq attBq attWk attBk withMask maskHeadFn gtMaskFn loss false
        feats memory srcProj srcMask bodyFeats inputs).2 =
      Except.ok (Sum.inr t) ∧
      t.1 = (fun b q => DETRHead.outputsBbox L B Q n c numMlp bboxPs feats
        (Fin.last L) b q) ∧
      t.2.1 = (fun b q => DETRHead.outputsLogit L B Q n c ncls scoreW scoreB
        feats (Fin.last L) b q) ∧
      (withMask = true → t.2.2 = some (DETRHead.outputsSeg L B Q n c H W
        attWq attBq attWk attBk maskHeadFn feats memory srcProj srcMask
        bodyFeats)) ∧
      (withMask = false → t.2.2 = none) := by
  refine ⟨_, rfl, rfl, rfl, ?_, ?_⟩ <;> intro h <;> simp [h]

/-- C10: in inference mode the output of `DETRHead.forward` depends only
on the last decoder layer's query features: two query tensors agreeing on
`feats[-1]` produce equal results for the same memory, projected memory,
spatial mask and backbone features, whatever the earlier decoder layers
hold. -/
theorem C10_inference_last_layer_only (L B Q n c ncls numMlp H W : ℕ)
    {pi ph sg rho gb gc gp mu : Type}
    (scoreW : Fin ncls → Fin (n * c) → ℝ) (scoreB : Fin ncls → ℝ)
    (bboxPs : ℕ → (ℕ → ℕ → ℝ) × (ℕ → ℝ))
    (attWq : Fin (n * c) → Fin (n * c) → ℝ) (attBq : Fin (n * c) → ℝ)
    (attWk : Fin (n * c) → Fin (n * c) → ℝ) (attBk : Fin (n * c) → ℝ)
    (withMask : Bool)
    (maskHeadFn : pi → (Fin B → Fin Q → Fin n → Fin H → Fin W → ℝ) →
      List ph → Fin (B * Q) → sg)
    (gtMaskFn : gp → mu)
    (loss : LossArgs L B Q ncls sg gb gc mu → rho)
    (feats1 feats2 : Fin (L + 1) → Fin B → Fin Q → Fin (n * c) → ℝ)
    (memory : Fin B → Fin (n * c) → Fin H → Fin W → ℝ)
    (srcProj : pi)
    (srcMask : Option (Fin B → Fin Q → Fin n → Fin H → Fin W → ℝ))
    (bodyFeats : List ph)
    (inputs : Option (HeadInputs gb gc gp))
    (hlast : feats1 (Fin.last L) = feats2 (Fin.last L)) :
    (DETRHead.forward L B Q n c ncls numMlp H W scoreW scoreB bboxPs
        attWq attBq attWk attBk withMask maskHeadFn gtMaskFn loss false
        feats1 memory srcProj srcMask bodyFeats inputs).2 =
      (DETRHead.forward L B Q n c ncls numMlp H W scoreW scoreB bboxPs
        attWq attBq attWk attBk withMask maskHeadFn gtMaskFn loss false
        feats2 memory srcProj srcMask bodyFeats inputs).2 := by
  have hbb : DETRHead.outputsBbox L B Q n c numMlp bboxPs feats1 (Fin.last L) =
      DETRHead.outputsBbox L B Q n c numMlp bboxPs feats2 (Fin.last L) := by
    funext b q j
    simp only [DETRHead.outputsBbox, hlast]
  have hlg : DETRHead.outputsLogit L B Q n c ncls scoreW scoreB feats1
        (Fin.last L) =
      DETRHead.outputsLogit L B Q n c ncls scoreW scoreB feats2 (Fin.last L) := by
    funext b q cls
    simp only [DETRHead.outputsLogit, hlast]
  have hsg : DETRHead.outputsSeg L B Q n c H W attWq attBq attWk attBk
        maskHeadFn feats1 memory srcProj srcMask bodyFeats =
      DETRHead.outputsSeg L B Q n c H W attWq attBq attWk attBk
        maskHeadFn feats2 memory srcProj srcMask bodyFeats := by
    funext b q
    simp only [DETRHead.outputsSeg, hlast]
  simp only [DETRHead.forward]
  rw [if_neg Bool.false_ne_true, if_neg Bool.false_ne_true]
  simp only [hbb, hlg, hsg]

/-- C2 amended: invoking training mode with missing supervision raises an
assertion failure, but only after the score head, box head and (when the
mask branch is enabled) attention map and mask head have executed; the
assertion does precede ground-truth mask rasterization and the loss
invocation. -/
theorem C2_amended_assert_after_tensor_ops (L B Q n c ncls numMlp H W : ℕ)
    {pi ph sg rho gb gc gp mu : Type}
    (scoreW : Fin ncls → Fin (n * c) → ℝ) (scoreB : Fin ncls → ℝ)
    (bboxPs : ℕ → (ℕ → ℕ → ℝ) × (ℕ → ℝ))
    (attWq : Fin (n * c) → Fin (n * c) → ℝ) (attBq : Fin (n * c) → ℝ)
    (attWk : Fin (n * c) → Fin (n * c) → ℝ) (attBk : Fin (n * c) → ℝ)
    (withMask : Bool)
    (maskHeadFn : pi → (Fin B → Fin Q → Fin n → Fin H → Fin W → ℝ) →
      List ph → Fin (B * Q) → sg)
    (gtMaskFn : gp → mu)
    (loss : LossArgs L B Q ncls sg gb gc mu → rho)
    (feats : Fin (L + 1) → Fin B → Fin Q → Fin (n * c) → ℝ)
    (memory : Fin B → Fin (n * c) → Fin H → Fin W → ℝ)
    (srcProj : pi)
    (srcMask : Option (Fin B → Fin Q → Fin n → Fin H → Fin W → ℝ))
    (bodyFeats : List ph)
    (inputs : Option (HeadInputs gb gc gp))
    (hbad : badInputs inputs) :
    ∃ e, (DETRHead.forward L B Q n c ncls numMlp H W scoreW scoreB bboxPs
        attWq attBq attWk attBk withMask maskHeadFn gtMaskFn loss true
        feats memory srcProj srcMask bodyFeats inputs).2 =
      Except.error e ∧
      (DETRHead.forward L B Q n c ncls numMlp H W scoreW scoreB bboxPs
        attWq attBq attWk attBk withMask maskHeadFn gtMaskFn loss true
        feats memory srcProj srcMask bodyFeats inputs).1 =
        [HeadEv.score, HeadEv.bbox] ++
          (if withMask then [HeadEv.attention, HeadEv.maskHead] else []) ∧
      HeadEv.gtMask ∉ (DETRHead.forward L B Q n c ncls numMlp H W scoreW
        scoreB bboxPs attWq attBq attWk attBk withMask maskHeadFn gtMaskFn
        loss true feats memory srcProj srcMask bodyFeats inputs).1 ∧
      HeadEv.lossCall ∉ (DETRHead.forward L B Q n c ncls numMlp H W scoreW
        scoreB bboxPs attWq attBq attWk attBk withMask maskHeadFn gtMaskFn
        loss true feats memory srcProj srcMask bodyFeats inputs).1 := by
  have hmem1 : HeadEv.gtMask ∉ ([HeadEv.score, HeadEv.bbox] ++
      (if withMask then [HeadEv.attention, HeadEv.maskHead] else [])) := by
    cases withMask <;> decide
  have hmem2 : HeadEv.lossCall ∉ ([HeadEv.score, HeadEv.bbox] ++
      (if withMask then [HeadEv.attention, HeadEv.maskHead] else [])) := by
    cases withMask <;> decide
  cases inputs with
  | none =>
    exact ⟨AssertErr.inputsNone, rfl, rfl, hmem1, hmem2⟩
  | some inp =>
    obtain ⟨gtB, gtC, gtP⟩ := inp
    rcases hbad with hb | hc
    · cases hb' : gtB with
      | some v => rw [hb'] at hb; simp at hb
      | none =>
        subst hb'
        cases gtC with
        | none => exact ⟨AssertErr.missingKeys, rfl, rfl, hmem1, hmem2⟩
        | some v => exact ⟨AssertErr.missingKeys, rfl, rfl, hmem1, hmem2⟩
    · cases hc' : gtC with
      | some v => rw [hc'] at hc; simp at hc
      | none =>
        subst hc'
        cases gtB with
        | none => exact ⟨AssertErr.missingKeys, rfl, rfl, hmem1, hmem2⟩
        | some v => exact ⟨AssertErr.missingKeys, rfl, rfl, hmem1, hmem2⟩

/-- Counterexample for C2: the forward pass invoked in training mode with
`inputs = None` raises the assertion, but only after the score head and
box head have executed — the trace of tensor computations preceding the
failure is `[score, bbox]`, not empty. -/
theorem C2_counterexample :
    (exHeadForward false true none).1 = [HeadEv.score, HeadEv.bbox] ∧
    (exHeadForward false true none).2 = Except.error AssertErr.inputsNone := by
  constructor <;> rfl

/-- Witness for the amended C2 at the concrete minimal head. -/
theorem C2_amended_assert_after_tensor_ops_witness :
    badInputs (none : Option (HeadInputs Unit Unit Unit)) ∧
    (∃ e, (exHeadForward false true none).2 = Except.error e ∧
      (exHeadForward false true none).1 =
        [HeadEv.score, HeadEv.bbox] ++
          (if false then [HeadEv.attention, HeadEv.maskHead] else []) ∧
      HeadEv.gtMask ∉ (exHeadForward false true none).1 ∧
      HeadEv.lossCall ∉ (exHeadForward false true none).1) :=
  ⟨trivial,
    C2_amended_assert_after_tensor_ops 0 1 1 1 1 1 3 1 1
      (fun _ _ => 0) (fun _ => 0) (fun _ => (fun _ _ => 0, fun _ => 0))
      (fun _ _ => 0) (fun _ => 0) (fun _ _ => 0) (fun _ => 0)
      false (fun _ _ _ _ => ()) (fun (_ : Unit) => ())
      (fun (_ : LossArgs 0 1 1 1 Unit Unit Unit Unit) => ())
      (fun _ _ _ _ => 0) (fun _ _ _ _ => 0) () none ([] : List Unit)
      (none : Option (HeadInputs Unit Unit Unit)) trivial⟩

/-- Witness for C7 at the concrete minimal head (mask branch disabled). -/
theorem C7_inference_triple_witness :
    ∃ t, (exHeadForward false false none).2 = Except.ok (Sum.inr t) ∧
      t.1 = (fun b q => DETRHead.outputsBbox 0 1 1 1 1 3
        (fun _ => (fun _ _ => 0, fun _ => 0)) (fun _ _ _ _ => 0)
        (Fin.last 0) b q) ∧
      t.2.1 = (fun b q => DETRHead.outputsLogit 0 1 1 1 1 1
        (fun _ _ => 0) (fun _ => 0) (fun _ _ _ _ => 0) (Fin.last 0) b q) ∧
      (false = true → t.2.2 = some (DETRHead.outputsSeg 0 1 1 1 1 1 1
        (fun _ _ => 0) (fun _ => 0) (fun _ _ => 0) (fun _ => 0)
        (fun _ _ _ _ => ()) (fun _ _ _ _ => 0) (fun _ _ _ _ => 0) () none
        ([] : List Unit))) ∧
      (false = false → t.2.2 = none) :=
  C7_inference_triple 0 1 1 1 1 1 3 1 1
    (fun _ _ => 0) (fun _ => 0) (fun _ => (fun _ _ => 0, fun _ => 0))
    (fun _ _ => 0) (fun _ => 0) (fun _ _ => 0) (fun _ => 0)
    false (fun _ _ _ _ => ()) (fun (_ : Unit) => ())
    (fun (_ : LossArgs 0 1 1 1 Unit Unit Unit Unit) => ())
    (fun _ _ _ _ => 0) (fun _ _ _ _ => 0) () none ([] : List Unit)
    (none : Option (HeadInputs Unit Unit Unit))

/-- Witness for C10: the two variants agree on the last decoder layer and
the inference results coincide. -/
theorem C10_inference_last_layer_only_witness :
    exFeatsA (Fin.last 1) = exFeatsB (Fin.last 1) ∧
    (exHeadForwardTwoLayers exFeatsA).2 = (exHeadForwardTwoLayers exFeatsB).2 :=
  ⟨rfl,
    C10_inference_last_layer_only 1 1 1 1 1 1 3 1 1
      (fun _ _ => 0) (fun _ => 0) (fun _ => (fun _ _ => 0, fun _ => 0))
      (fun _ _ => 0) (fun _ => 0) (fun _ _ => 0) (fun _ => 0)
      true (fun _ _ _ _ => ()) (fun (_ : Unit) => ())
      (fun (_ : LossArgs 1 1 1 1 Unit Unit Unit Unit) => ())
      exFeatsA exFeatsB (fun _ _ _ _ => 0) () none ([] : List Unit)
      (none : Option (HeadInputs Unit Unit Unit)) rfl⟩

end DetrHead
